import Mathlib

/-!
Verification of the path / router / connection core of `bevy_httpserver`.

Shallow embedding of:
  - `src/http_path.rs` (`HttpPath`): segment-based URL paths with prefix tests,
  - `src/http_request_handler.rs` (`HttpRequestHandler`): the hierarchical router,
  - the single-item handoff slot of `src/http_connection_task.rs` and
    `src/http_connection_server.rs`,
  - the worker loop `HttpConnectionServer::run` of `src/http_connection_server.rs`.

Machine strings are `String` (`List Char` data); Rust `str::split("/")` on the
one-character separator is modelled by `List.splitOn '/'` on the character data,
and `Vec::join("/")` by `String.intercalate "/"`.
-/

namespace BevyHttp

/-- Embeds `HttpPath` from `src/http_path.rs`: a vector of string segments. -/
structure HttpPath where
  parts : List String
deriving DecidableEq

/-- Embeds `HttpPath::new` (the default: no segments). -/
def HttpPath.new : HttpPath := ⟨[]⟩

/-- Embeds `HttpPath::to_string`: empty for zero segments, the bare separator
for exactly one segment, otherwise the segments joined with the separator. -/
def HttpPath.to_string (p : HttpPath) : String :=
  if p.parts.length > 0 then
    if p.parts.length = 1 then "/"
    else String.intercalate "/" p.parts
  else ""

/-- Embeds `HttpPath::push`: an empty path first receives an empty segment,
then the new segment is appended. -/
def HttpPath.push (p : HttpPath) (s : String) : HttpPath :=
  if p.parts.length = 0 then ⟨p.parts ++ [""] ++ [s]⟩ else ⟨p.parts ++ [s]⟩

/-- Embeds `HttpPath::starts_with`: false when the receiver has fewer segments,
otherwise the pairwise equality loop over the segments of `other`. -/
def HttpPath.starts_with (self other : HttpPath) : Bool :=
  if self.parts.length < other.parts.length then false
  else (other.parts.zip self.parts).all fun pr => pr.2 == pr.1

/-- Embeds `impl From<&str> for HttpPath`: the empty string gives no segments,
the bare separator gives one empty segment, any other string is split on the
separator character (Rust `str::split("/")`, modelled by `List.splitOn '/'`
over the character data). -/
def HttpPath.ofStr (s : String) : HttpPath :=
  if s = "" then HttpPath.new
  else if s = "/" then ⟨[""]⟩
  else ⟨(s.data.splitOn '/').map fun cs => ⟨cs⟩⟩

example : (HttpPath.ofStr "").parts = [] := by decide
example : (HttpPath.ofStr "/").parts = [""] := by decide
example : (HttpPath.ofStr "/foo").parts = ["", "foo"] := by decide
example : (HttpPath.ofStr "/foo/bar").parts = ["", "foo", "bar"] := by decide
example : (HttpPath.ofStr "foo").parts = ["foo"] := by decide
example : (HttpPath.ofStr "/foo").to_string = "/foo" := by decide
example : (HttpPath.ofStr "/").to_string = "/" := by decide
example : (HttpPath.ofStr "foo").to_string = "/" := by decide
example : ((HttpPath.ofStr "/").push "foo").parts = ["", "foo"] := by decide
example : ((HttpPath.ofStr "").push "foo").parts = ["", "foo"] := by decide
example : (HttpPath.ofStr "/foo/bar").starts_with (HttpPath.ofStr "/foo") = true := by decide
example : (HttpPath.ofStr "/foo/bar").starts_with (HttpPath.ofStr "") = true := by decide
example : (HttpPath.ofStr "/").starts_with (HttpPath.ofStr "") = true := by decide
example : (HttpPath.ofStr "").starts_with (HttpPath.ofStr "/") = false := by decide
example : (HttpPath.ofStr "/foo/bar").starts_with (HttpPath.ofStr "/foo/baz") = false := by decide

/-! Helper lemmas about the segment operations. -/

lemma zip_all_beq_iff : ∀ (l₂ l₁ : List String), l₂.length ≤ l₁.length →
    ((((l₂.zip l₁).all fun pr => pr.2 == pr.1) = true) ↔ l₂ <+: l₁) := by
  intro l₂
  induction l₂ with
  | nil =>
    intro l₁ _
    simp
  | cons b bs ih =>
    intro l₁ hlen
    cases l₁ with
    | nil => simp at hlen
    | cons a as =>
      simp only [List.zip_cons_cons, List.all_cons, Bool.and_eq_true, beq_iff_eq,
        List.cons_prefix_cons]
      constructor
      · rintro ⟨h1, h2⟩
        exact ⟨h1.symm, (ih as (by simpa using hlen)).mp h2⟩
      · rintro ⟨h1, h2⟩
        exact ⟨h1.symm, (ih as (by simpa using hlen)).mpr h2⟩

lemma starts_with_iff_aux (A B : HttpPath) :
    A.starts_with B = true ↔ B.parts <+: A.parts := by
  unfold HttpPath.starts_with
  by_cases h : A.parts.length < B.parts.length
  · simp only [if_pos h, Bool.false_eq_true, false_iff]
    intro hpre
    exact absurd hpre.length_le (by omega)
  · simpa only [if_neg h] using zip_all_beq_iff B.parts A.parts (by omega)

lemma list_intercalate_eq_flatMap (sep : List Char) :
    ∀ (a : List Char) (ls : List (List Char)),
    List.intercalate sep (a :: ls) = a ++ ls.flatMap (fun b => sep ++ b) := by
  intro a ls
  induction ls generalizing a with
  | nil => simp [List.intercalate]
  | cons b t ih =>
    simp only [List.intercalate, List.intersperse_cons_cons, List.flatten_cons] at ih ⊢
    rw [ih b]
    simp [List.append_assoc]

lemma intercalate_go_data (sep : String) :
    ∀ (as : List String) (acc : String),
    (String.intercalate.go acc sep as).data
      = acc.data ++ as.flatMap (fun a => sep.data ++ a.data) := by
  intro as
  induction as with
  | nil =>
    intro acc
    simp [String.intercalate.go]
  | cons a as ih =>
    intro acc
    simp [String.intercalate.go, ih, List.append_assoc]

lemma intercalate_data (sep : String) (a : String) (as : List String) :
    (String.intercalate sep (a :: as)).data
      = List.intercalate sep.data ((a :: as).map String.data) := by
  show (String.intercalate.go a sep as).data = _
  rw [intercalate_go_data, List.map_cons, list_intercalate_eq_flatMap]
  congr 1
  rw [List.flatMap_map]

/-- C4: `A.starts_with(B)` is true exactly when the segments of `B` are a
prefix of the segments of `A` (pairwise equal, `A` at least as long as `B`);
in particular every path starts with itself. -/
theorem HttpPath.starts_with_spec :
    (∀ A B : HttpPath, (A.starts_with B = true ↔ B.parts <+: A.parts)) ∧
    (∀ P : HttpPath, P.starts_with P = true) :=
  ⟨fun A B => starts_with_iff_aux A B,
   fun P => (starts_with_iff_aux P P).mpr (List.prefix_refl _)⟩

/-- C1 counterexample: the root path `"/"` has one segment, yet it does start
with the empty path, contradicting the claim that only the empty path starts
with the empty path. -/
theorem root_starts_with_empty_cex :
    (HttpPath.ofStr "/").parts.length = 1 ∧
    (HttpPath.ofStr "/").starts_with (HttpPath.ofStr "") = true := by
  decide

/-- C1 amended: the empty path is a prefix of every path, the root path and
deeper paths included; `A.starts_with(Key(""))` is true for every `A`. -/
theorem every_path_starts_with_empty :
    (HttpPath.ofStr "").starts_with (HttpPath.ofStr "") = true ∧
    ∀ A : HttpPath, A.starts_with (HttpPath.ofStr "") = true := by
  refine ⟨by decide, fun A => ?_⟩
  refine (starts_with_iff_aux A (HttpPath.ofStr "")).mpr ?_
  show (HttpPath.ofStr "").parts <+: A.parts
  simp [HttpPath.ofStr, HttpPath.new]

/-- C9: pushing a segment strictly increases the segment count. -/
theorem HttpPath.push_grows :
    ∀ (p : HttpPath) (s : String), p.parts.length < ((p.push s).parts).length := by
  intro p s
  by_cases h : p.parts.length = 0
  · simp [HttpPath.push, h]
  · simp [HttpPath.push, h]

/-- C10: a path with exactly one segment stringifies to the bare separator,
whatever that segment holds. -/
theorem HttpPath.to_string_single (p : HttpPath) (h : p.parts.length = 1) :
    p.to_string = "/" := by
  simp [HttpPath.to_string, h]

/-- C10 witness: `Key("foo")` parses to the single segment `"foo"` and
stringifies to `"/"`. -/
theorem HttpPath.to_string_single_w :
    (HttpPath.ofStr "foo").parts = ["foo"] ∧ (HttpPath.ofStr "foo").to_string = "/" :=
  ⟨by decide, HttpPath.to_string_single (HttpPath.ofStr "foo") (by decide)⟩

/-- C8 counterexample: `"foo"` is a non-empty path string with no separator in
it, yet `Key("foo").to_string()` is `"/"`, not `"foo"`. -/
theorem round_trip_cex :
    (HttpPath.ofStr "foo").to_string ≠ "foo" ∧ (HttpPath.ofStr "foo").to_string = "/" := by
  decide

/-- C8 amended: the round trip is the identity for every non-empty path string
that begins with the separator and whose segments hold no embedded separator
(such a string is the separator-join of `"" :: segs`). -/
theorem round_trip_slash_paths (segs : List String)
    (hsep : ∀ seg ∈ segs, ('/' : Char) ∉ seg.data) (hne : segs ≠ []) :
    (HttpPath.ofStr (String.intercalate "/" ("" :: segs))).to_string
      = String.intercalate "/" ("" :: segs) := by
  by_cases hq : segs = [""]
  · subst hq
    decide
  · obtain ⟨s, rest, rfl⟩ : ∃ s rest, segs = s :: rest := by
      cases segs with
      | nil => exact absurd rfl hne
      | cons s rest => exact ⟨s, rest, rfl⟩
    set path := String.intercalate "/" ("" :: s :: rest) with hpath
    have hdata : path.data
        = List.intercalate ['/'] (("" :: s :: rest).map String.data) :=
      intercalate_data "/" "" (s :: rest)
    have hflat : path.data
        = (s :: rest).flatMap (fun b => ['/'] ++ b.data) := by
      rw [hdata, List.map_cons, list_intercalate_eq_flatMap]
      show List.nil ++ _ = _
      rw [List.nil_append, List.flatMap_map]
    have h0 : path ≠ "" := by
      intro h
      have : path.data = [] := by rw [h]
      rw [hflat] at this
      simp [List.flatMap_cons] at this
    have h1 : path ≠ "/" := by
      intro h
      have hd : path.data = ['/'] := by rw [h]
      rw [hflat, List.flatMap_cons] at hd
      simp only [List.append_assoc, List.cons_append, List.nil_append,
        List.cons.injEq, true_and] at hd
      have hsd : s.data = [] ∧ rest.flatMap (fun b => ['/'] ++ b.data) = [] :=
        List.append_eq_nil.mp hd
      have hrest : rest = [] := by
        have := List.flatMap_eq_nil_iff.mp hsd.2
        cases rest with
        | nil => rfl
        | cons r rs => exact absurd (this r (by simp)) (by simp)
      have hs : s = "" := by
        cases s with
        | mk d => cases hsd.1; rfl
      exact hq (by rw [hs, hrest])
    have hx : ∀ l ∈ ("" :: s :: rest).map String.data, ('/' : Char) ∉ l := by
      intro l hl
      rcases List.mem_map.mp hl with ⟨t, ht, rfl⟩
      rcases List.mem_cons.mp ht with h | h
      · subst h; simp
      · exact hsep t h
    have hparts : (HttpPath.ofStr path).parts = "" :: s :: rest := by
      unfold HttpPath.ofStr
      rw [if_neg h0, if_neg h1]
      show ((path.data.splitOn '/').map fun cs => (⟨cs⟩ : String)) = _
      rw [hdata]
      have hsplit := List.splitOn_intercalate (("" :: s :: rest).map String.data)
        '/' hx (by simp)
      simp only [List.intercalate] at hsplit ⊢
      rw [hsplit, List.map_map]
      have hid : ((fun cs => (⟨cs⟩ : String)) ∘ String.data) = id := funext fun t => rfl
      rw [hid, List.map_id]
    show (HttpPath.ofStr path).to_string = path
    unfold HttpPath.to_string
    rw [hparts]
    simp only [List.length_cons]
    rw [if_pos (by omega), if_neg (by omega)]

/-- C8 amended witness: the single-segment list `["foo"]` satisfies the
hypotheses and yields the round trip for `"/foo"`. -/
theorem round_trip_slash_paths_w :
    (∀ seg ∈ ["foo"], ('/' : Char) ∉ seg.data) ∧ (["foo"] : List String) ≠ [] ∧
    (HttpPath.ofStr (String.intercalate "/" ("" :: ["foo"]))).to_string
      = String.intercalate "/" ("" :: ["foo"]) :=
  ⟨by decide, by decide, round_trip_slash_paths ["foo"] (by decide) (by decide)⟩

/-!
The hierarchical request router of `src/http_request_handler.rs`. The Bevy
`World` (the orchestrator state the handler functions may mutate) and the
response body are type parameters; a handler function receives the world and
the request URI path and returns either an updated world with a response, or a
numeric HTTP status code, embedding
`fn(&mut World, &Request<Bytes>) -> Result<Response<Bytes>, StatusCode>`.
-/

inductive HttpRequestHandler (W B : Type) where
  | mk (dir_name : String) (function : W → String → Except Nat (W × B))
       (children : List (HttpRequestHandler W B))

def HttpRequestHandler.dir_name {W B : Type} : HttpRequestHandler W B → String
  | .mk dn _ _ => dn

def HttpRequestHandler.function {W B : Type} :
    HttpRequestHandler W B → W → String → Except Nat (W × B)
  | .mk _ f _ => f

def HttpRequestHandler.children {W B : Type} :
    HttpRequestHandler W B → List (HttpRequestHandler W B)
  | .mk _ _ cs => cs

/-- `StatusCode::NOT_FOUND`. -/
def NOT_FOUND : Nat := 404

/-- Embeds `HttpRequestHandler::new`: store the name and the function with no
children; the name is not inspected. -/
def HttpRequestHandler.new {W B : Type} (dn : String)
    (f : W → String → Except Nat (W × B)) : HttpRequestHandler W B :=
  .mk dn f []

/-- Embeds `HttpRequestHandler::add_child`: `none` models the Rust panic raised
when the name of the added child holds a separator; otherwise the child is
appended to the list of children. -/
def HttpRequestHandler.add_child {W B : Type} (h c : HttpRequestHandler W B) :
    Option (HttpRequestHandler W B) :=
  if c.dir_name.data.contains '/' then none
  else some (.mk h.dir_name h.function (h.children ++ [c]))

mutual

/-- Embeds `HttpRequestHandler::handle`: parse the current path and the
request URI path, then run the child loop with this node as fallthrough. -/
def HttpRequestHandler.handle {W B : Type} :
    HttpRequestHandler W B → W → String → String → Except Nat (W × B)
  | .mk _dn f cs, world, path, reqPath =>
    HttpRequestHandler.handleChildren cs f (HttpPath.ofStr path)
      (HttpPath.ofStr reqPath) world reqPath

/-- The child loop of `handle`: for each child in order, build
`candidate = current_path + child.dir_name`; on the first child whose
candidate is a prefix of the request path, recurse with the candidate
stringified as the new current path; past the last child, answer NOT_FOUND
when the current path differs from the request path, otherwise call the
node function. -/
def HttpRequestHandler.handleChildren {W B : Type} :
    List (HttpRequestHandler W B) → (W → String → Except Nat (W × B)) →
      HttpPath → HttpPath → W → String → Except Nat (W × B)
  | [], f, current, request, world, reqPath =>
    if current ≠ request then .error NOT_FOUND else f world reqPath
  | c :: rest, f, current, request, world, reqPath =>
    let candidate := current.push c.dir_name
    if request.starts_with candidate then
      HttpRequestHandler.handle c world candidate.to_string reqPath
    else
      HttpRequestHandler.handleChildren rest f current request world reqPath

end

/-- C2: the child loop inspects children in registration order: whenever no
child before `c` matches and `c` does match (its candidate path is a prefix of
the request path), dispatch recurses into `c` with the stringified candidate as
the new current path, whatever children follow `c` — a later, possibly longer
or more specific match is never consulted. -/
theorem handle_first_match {W B : Type} (dn : String)
    (f : W → String → Except Nat (W × B))
    (pre : List (HttpRequestHandler W B)) (c : HttpRequestHandler W B)
    (post : List (HttpRequestHandler W B)) (world : W) (path reqPath : String)
    (hpre : ∀ c2 ∈ pre,
      (HttpPath.ofStr reqPath).starts_with ((HttpPath.ofStr path).push c2.dir_name) = false)
    (hc : (HttpPath.ofStr reqPath).starts_with ((HttpPath.ofStr path).push c.dir_name) = true) :
    HttpRequestHandler.handle (.mk dn f (pre ++ c :: post)) world path reqPath
      = HttpRequestHandler.handle c world
          ((HttpPath.ofStr path).push c.dir_name).to_string reqPath := by
  show HttpRequestHandler.handleChildren (pre ++ c :: post) f (HttpPath.ofStr path)
      (HttpPath.ofStr reqPath) world reqPath = _
  induction pre with
  | nil =>
    simp only [List.nil_append, HttpRequestHandler.handleChildren, hc, if_true]
  | cons p ps ih =>
    have hp := hpre p (List.mem_cons_self p ps)
    simp only [List.cons_append, HttpRequestHandler.handleChildren, hp,
      Bool.false_eq_true, if_false]
    exact ih fun c2 hmem => hpre c2 (List.mem_cons_of_mem p hmem)

/-- C2 witness: under root `"/"`, with a non-matching sibling before and a
second child also named `"foo"` after, the request `"/foo"` is dispatched to
the first `"foo"` child. -/
theorem handle_first_match_w :
    ((HttpPath.ofStr "/foo").starts_with ((HttpPath.ofStr "/").push "foo") = true) ∧
    HttpRequestHandler.handle
        (.mk "/" (fun (w : Nat) _ => (.ok (w, 1) : Except Nat (Nat × Nat)))
          ([.mk "aaa" (fun w _ => .ok (w, 2)) []] ++
            (.mk "foo" (fun w _ => .ok (w, 3)) []) ::
              [.mk "foo" (fun w _ => .ok (w, 4)) []]))
        0 "/" "/foo"
      = HttpRequestHandler.handle (.mk "foo" (fun w _ => .ok (w, 3)) []) 0
          ((HttpPath.ofStr "/").push "foo").to_string "/foo" :=
  ⟨by decide,
   handle_first_match "/" _ _ _ _ 0 "/" "/foo"
     (by intro c2 hmem; fin_cases hmem; decide) (by decide)⟩

/-- C3: when no child candidate is a prefix of the request path, dispatch
calls the node function exactly when the parsed current path equals the parsed
request path, and otherwise answers NOT_FOUND — without touching the node
function, since the result is the same for every `f`. -/
theorem handle_no_child_match {W B : Type} (dn : String)
    (f : W → String → Except Nat (W × B)) (cs : List (HttpRequestHandler W B))
    (world : W) (path reqPath : String)
    (h : ∀ c ∈ cs,
      (HttpPath.ofStr reqPath).starts_with ((HttpPath.ofStr path).push c.dir_name) = false) :
    HttpRequestHandler.handle (.mk dn f cs) world path reqPath
      = if HttpPath.ofStr path = HttpPath.ofStr reqPath then f world reqPath
        else .error NOT_FOUND := by
  show HttpRequestHandler.handleChildren cs f (HttpPath.ofStr path)
      (HttpPath.ofStr reqPath) world reqPath = _
  induction cs with
  | nil =>
    by_cases heq : HttpPath.ofStr path = HttpPath.ofStr reqPath
    · simp only [HttpRequestHandler.handleChildren, heq, if_pos, ite_not, if_true]
    · simp only [HttpRequestHandler.handleChildren, heq, if_neg, ite_not, if_false]
  | cons p ps ih =>
    have hp := h p (List.mem_cons_self p ps)
    simp only [HttpRequestHandler.handleChildren, hp, Bool.false_eq_true, if_false]
    exact ih fun c2 hmem => h c2 (List.mem_cons_of_mem p hmem)

/-- C3 witness: a root with one child `"foo"` and the request `"/bar"`: the
child does not match, the current path differs from the request path, hence
the dispatch result is the NOT_FOUND error. -/
theorem handle_no_child_match_w :
    ((HttpPath.ofStr "/bar").starts_with ((HttpPath.ofStr "/").push "foo") = false) ∧
    HttpRequestHandler.handle
        (.mk "/" (fun (w : Nat) _ => (.ok (w, 1) : Except Nat (Nat × Nat)))
          [.mk "foo" (fun w _ => .ok (w, 2)) []])
        0 "/" "/bar"
      = if HttpPath.ofStr "/" = HttpPath.ofStr "/bar"
        then (fun (w : Nat) _ => (.ok (w, 1) : Except Nat (Nat × Nat))) 0 "/bar"
        else .error NOT_FOUND :=
  ⟨by decide,
   handle_no_child_match "/" _ _ 0 "/" "/bar"
     (by intro c2 hmem; fin_cases hmem; decide)⟩

/-- C5 counterexample: `new` performs no check on the name: constructing a node
whose name `"a/b"` holds the separator succeeds and stores the name as given;
no error is raised when the node itself is constructed. -/
theorem new_accepts_separator_cex :
    HttpRequestHandler.new "a/b"
        (fun (w : Nat) (_ : String) => (.ok (w, 0) : Except Nat (Nat × Nat)))
      = .mk "a/b" (fun w _ => .ok (w, 0)) [] ∧
    ("a/b".data.contains '/') = true :=
  ⟨rfl, by decide⟩

/-- C5 amended: the separator check happens when a node is attached to a
parent, not when it is constructed: `new` accepts any name, and `add_child`
rejects (the Rust panic, modelled as `none`) exactly the children whose name
holds a separator — still before any dispatch, but one phase after node
construction, and the name of a node never attached (the root) is never
checked. -/
theorem add_child_separator_check {W B : Type} :
    (∀ (dn : String) (f : W → String → Except Nat (W × B)),
      HttpRequestHandler.new dn f = .mk dn f []) ∧
    (∀ h c : HttpRequestHandler W B,
      (h.add_child c = none ↔ c.dir_name.data.contains '/' = true)) := by
  refine ⟨fun dn f => rfl, fun h c => ?_⟩
  unfold HttpRequestHandler.add_child
  by_cases hc : c.dir_name.data.contains '/' = true
  · simp [hc]
  · simp [hc]

/-!
The single-item handoff slot shared between `HttpConnectionServer` and
`HttpConnectionTask`: an `Arc<Mutex<Option<T>>>`, embedded as the `Option`
state it protects. `slot_set` embeds `set_request` / `set_response` (plain
overwrite), `slot_has` embeds `has_request` / `has_response`, and `slot_take`
embeds `take_request` / `take_response`: on a full slot it yields the value
and the emptied slot, on an empty slot it yields `none`, which models the
Rust panic (`can not take_request() because request is None`).
-/

def slot_set {α : Type} (_slot : Option α) (v : Option α) : Option α := v

def slot_has {α : Type} (slot : Option α) : Bool := slot.isSome

def slot_take {α : Type} : Option α → Option (α × Option α)
  | some v => some (v, none)
  | none => none

/-- C6: after `set(Some v)` the slot reports full and `take` yields `v`
leaving the slot empty (which then reports not full), while `take` on an
empty slot always fails fast (the modelled panic). -/
theorem slot_spec {α : Type} :
    (∀ (v : α) (s : Option α),
      slot_has (slot_set s (some v)) = true ∧
      slot_take (slot_set s (some v)) = some (v, none) ∧
      slot_has (none : Option α) = false) ∧
    slot_take (none : Option α) = none :=
  ⟨fun _v _s => ⟨rfl, rfl, rfl⟩, rfl⟩

/-!
The worker loop `HttpConnectionServer::run` of `src/http_connection_server.rs`,
embedded over a script of connection events: the outcome of each
`vebb::read_request` call, the response handed over for each request together
with the outcome of `vebb::send_response` for it, and the outcome of the final
`connection.close()`. The response-wait spin always terminates with the
scripted response, and an exhausted script stands for a peer that closes the
connection.
-/

/-- An `std::io::Error`: whether its kind is `ConnectionAborted`, and its
display text. -/
structure IOErrorModel where
  aborted : Bool
  msg : String
deriving DecidableEq

/-- The request data `run` looks at (method and URI feed only the log line). -/
structure RequestModel where
  method : String
  uri : String
deriving DecidableEq

/-- The response data `run` looks at: its status and the verdict of
`vebb::keep_alive_granted` on it. -/
structure ResponseModel where
  status : Nat
  keep_alive : Bool
deriving DecidableEq

/-- One iteration of the read loop: `read_request` fails with a status text,
or reports a clean close by the peer, or yields a request, in which case the
orchestrator supplies a response whose send has the given outcome
(`none` = sent). -/
inductive ConnEvent where
  | readFailed (status : String)
  | peerClosed
  | request (req : RequestModel) (resp : ResponseModel) (send_result : Option IOErrorModel)
deriving DecidableEq

/-- Embeds the teardown tail of `run`: `connection.close()`, where a
`ConnectionAborted` error is swallowed and any other error is surfaced as its
display text. -/
def runClose (close_result : Option IOErrorModel) : Except String Unit :=
  match close_result with
  | none => .ok ()
  | some e => if e.aborted then .ok () else .error e.msg

/-- Embeds `HttpConnectionServer::run`: a read failure returns
`"{peer}: {status}"`; a clean peer close breaks to teardown; a sent response
loops while keep-alive is granted; a send failure breaks to teardown when the
peer aborted and otherwise returns `"send_response returned {error}"`. -/
def run (peer : String) : List ConnEvent → Option IOErrorModel → Except String Unit
  | [], close_result => runClose close_result
  | e :: rest, close_result =>
    match e with
    | .readFailed status => .error (peer ++ ": " ++ status)
    | .peerClosed => runClose close_result
    | .request _req resp send_result =>
      match send_result with
      | some ioe =>
        if ioe.aborted then runClose close_result
        else .error ("send_response returned " ++ ioe.msg)
      | none =>
        if resp.keep_alive then run peer rest close_result
        else runClose close_result

/-- C7 counterexample: a send failure that is not a peer abort is surfaced as
`"send_response returned broken pipe"`, a failure string that does not contain
the peer address. -/
theorem run_send_error_no_peer_cex :
    run "127.0.0.1:40000"
        [.request ⟨"GET", "/"⟩ ⟨200, true⟩ (some ⟨false, "broken pipe"⟩)] none
      = .error "send_response returned broken pipe" ∧
    ¬ ("127.0.0.1:40000".data <:+: "send_response returned broken pipe".data) :=
  ⟨rfl, by decide⟩

/-- C7 amended: every failure string returned by `run` has one of three
shapes: a read failure `"{peer}: {status}"`, which does contain the peer
address as a prefix; a send failure `"send_response returned {error}"`; or a
teardown failure consisting of the bare error text — the last two without the
peer address. -/
theorem run_error_forms (peer : String) (events : List ConnEvent)
    (close_result : Option IOErrorModel) (s : String)
    (h : run peer events close_result = .error s) :
    (∃ status, s = peer ++ ": " ++ status ∧ peer.data <+: s.data) ∨
    (∃ m, s = "send_response returned " ++ m) ∨
    (∃ e, close_result = some e ∧ e.aborted = false ∧ s = e.msg) := by
  have hclose : ∀ cr : Option IOErrorModel, runClose cr = .error s →
      ∃ e, cr = some e ∧ e.aborted = false ∧ s = e.msg := by
    intro cr hcr
    match cr with
    | none => exact absurd hcr (by simp [runClose])
    | some e =>
      by_cases ha : e.aborted = true
      · exact absurd hcr (by simp [runClose, ha])
      · refine ⟨e, rfl, by simpa using ha, ?_⟩
        simpa [runClose, ha] using hcr.symm
  induction events with
  | nil => exact Or.inr (Or.inr (hclose close_result h))
  | cons e rest ih =>
    match e with
    | .readFailed status =>
      refine Or.inl ⟨status, ?_, ?_⟩
      · simpa [run] using h.symm
      · have hs : s = peer ++ ": " ++ status := by simpa [run] using h.symm
        exact ⟨(": " ++ status).data, by rw [hs]; simp⟩
    | .peerClosed => exact Or.inr (Or.inr (hclose close_result (by simpa [run] using h)))
    | .request req resp send_result =>
      match send_result with
      | some ioe =>
        by_cases ha : ioe.aborted = true
        · exact Or.inr (Or.inr (hclose close_result (by simpa [run, ha] using h)))
        · refine Or.inr (Or.inl ⟨ioe.msg, ?_⟩)
          have : (Except.error ("send_response returned " ++ ioe.msg) : Except String Unit)
              = Except.error s := by
            simpa [run, ha] using h
          simpa using this.symm
      | none =>
        by_cases hk : resp.keep_alive = true
        · exact ih (by simpa [run, hk] using h)
        · exact Or.inr (Or.inr (hclose close_result (by simpa [run, hk] using h)))

/-- C7 amended witness: a failing read on a concrete connection returns the
failure string led by the peer address, landing in the first shape. -/
theorem run_error_forms_w :
    run "10.0.0.1:9999" [.readFailed "bad request line"] none
      = .error "10.0.0.1:9999: bad request line" ∧
    ((∃ status, "10.0.0.1:9999: bad request line" = "10.0.0.1:9999" ++ ": " ++ status ∧
        "10.0.0.1:9999".data <+: "10.0.0.1:9999: bad request line".data) ∨
     (∃ m, "10.0.0.1:9999: bad request line" = "send_response returned " ++ m) ∨
     (∃ e, (none : Option IOErrorModel) = some e ∧ e.aborted = false ∧
        "10.0.0.1:9999: bad request line" = e.msg)) :=
  ⟨rfl,
   run_error_forms "10.0.0.1:9999" [.readFailed "bad request line"] none
     "10.0.0.1:9999: bad request line" rfl⟩

end BevyHttp
